import Mathlib

/-!
# Review-analytics dashboard: filtering and aggregation pipeline

A shallow embedding of the review filtering and categorical-aggregation
pipeline of the repository (src/dashboard.py and src/scraper.py), together
with theorems settling the frozen claims about it.

Modelling conventions:
* A pandas DataFrame row becomes a `Review`; a DataFrame becomes a
  `List Review` (order = row order).
* `rating` is an integer, `date` an integer day number (only ordering and
  equality of dates matter to the code).
* A cell that may be NaN (the review text, the precomputed keyword hits)
  becomes an `Option String`; `none` models NaN.
* Whether the `matched_keywords` column exists on the frame is a property of
  the whole frame, modelled by a `Bool` parameter `hasMK`.
* Percentages and averages are modelled in `ℚ` (all arithmetic the code does
  on them is exact ratio arithmetic).
* `pandas.Series.str.contains(pat, case=False, na=False)` compiles the
  `|`-join of the keyword phrases as a regular expression.  The only regex
  metacharacter occurring in any keyword is `?` (optional previous
  character), so the pattern semantics is: some keyword matches where each
  `?` makes the preceding character optional.  `regexAlts` expands a keyword
  into the finite list of literal strings its branch denotes, which is exact
  for these patterns.
-/

/-- One review row, the canonical schema of the loaded dataset:
`brand`, `customer name`, review text (`review` in dashboard.py,
`review_text` in scraper.py), `rating`, `date`, and the optional
precomputed `matched_keywords` cell. -/
structure Review where
  brand : String
  customer_name : String
  review_text : Option String
  rating : Int
  date : Int
  matched_keywords : Option String
deriving DecidableEq, Repr

/-- The fixed category names of the static keyword dictionary. -/
inductive Category where
  | product_issue
  | service_issue
  | expectation
  | delivery_issue
  | positive_experience
deriving DecidableEq, Repr

open Category

/-- The dictionary order of the categories, as the Python dict iterates them. -/
def allCategories : List Category :=
  [product_issue, service_issue, expectation, delivery_issue, positive_experience]

/-- The static keyword dictionary of src/dashboard.py (`categories`). -/
def categories : Category → List String
  | product_issue =>
      ["too small", "too big", "wrong size", "poor fit", "too tight", "loose",
       "didn't fit", "short", "sizing", "Sizing", "fit", "didn't fit", "too loose",
       "height", "weight", "poor sizing", "wrong size", "poor sizing information",
       "lack of sizing information", "wrong sizing information", "ordered wrong size",
       "don't know my size", "didn't know which size", "which size",
       "what's the length", "what's the size", "how tall", "what size",
       "is this suitable for", "idk which size",
       "what size is the model wearing ?", "How tall is the model?", "Would this fit ?"]
  | service_issue =>
      ["no reply", "didn't respond", "ignored", "bad service", "no response",
       "unhelpful", "rude", "messages from team", "no answer"]
  | expectation => ["refund", "return", "exchange", "compensation"]
  | delivery_issue =>
      ["not delivered", "didn't receive", "lost order", "missing item",
       "delivery delay", "waiting"]
  | positive_experience =>
      ["fantastic", "great", "smooth", "helpful", "excellent", "thank you",
       "amazing", "outstanding", "resolved", "fast", "quick"]

/-- The static keyword dictionary of src/scraper.py (`categories`): same five
categories, the `product_issue` list is the shorter one. -/
def scraper_categories : Category → List String
  | product_issue =>
      ["too small", "too big", "wrong size", "poor fit", "too tight", "loose",
       "didn't fit", "short", "sizing"]
  | c => categories c

/-- Case folding as `re.IGNORECASE` acts on this pure-ASCII data. -/
def lowerChars (s : String) : List Char := s.data.map Char.toLower

/-- The literal strings denoted by one `|`-branch of the compiled pattern:
every character is literal except `?`, which makes the preceding character
optional.  Exact for the keyword phrases of this repository (no other regex
metacharacter occurs in any keyword). -/
def regexAlts : List Char → List (List Char)
  | [] => [[]]
  | c :: rest =>
    match rest with
    | q :: rest2 =>
      if q = '?' then (regexAlts rest2).map (c :: ·) ++ regexAlts rest2
      else (regexAlts (q :: rest2)).map (c :: ·)
    | [] => [[c]]

/-- Boolean infix test on character lists. -/
def infixOf (l₁ l₂ : List Char) : Bool := decide (l₁ <:+: l₂)

/-- `re.search` of the branch compiled from keyword `kw` against `text`,
case-insensitively: some expansion of the branch occurs in the text. -/
def kwMatches (kw text : String) : Bool :=
  (regexAlts (lowerChars kw)).any (fun alt => infixOf alt (lowerChars text))

/-- Plain case-insensitive substring containment of the keyword phrase —
the matching relation the specification describes. -/
def substrMatch (kw text : String) : Bool :=
  infixOf (lowerChars kw) (lowerChars text)

/-- The union, in order, of the keyword lists of the selected categories
(`all_keywords` in both sources), over a given dictionary. -/
def all_keywords_of (dict : Category → List String) (selected : List Category) : List String :=
  (selected.map dict).flatten

/-- The text cell `str.contains` searches: the row's `matched_keywords` cell
when that column exists on the frame, else its review text. -/
def searchText (hasMK : Bool) (r : Review) : Option String :=
  if hasMK then r.matched_keywords else r.review_text

/-- Whether one row passes the category filter: its searchable text (missing
text never matches: `na=False`) matches the compiled pattern of the selected
categories' keywords. -/
def rowMatchesWith (dict : Category → List String) (hasMK : Bool)
    (selected : List Category) (r : Review) : Bool :=
  match searchText hasMK r with
  | none => false
  | some t => (all_keywords_of dict selected).any (fun kw => kwMatches kw t)

/-- `filter_by_categories` over a given dictionary: an empty selection
returns the frame unchanged, otherwise rows whose searchable text matches
the `|`-joined pattern are kept, in order. -/
def filterByCategoriesWith (dict : Category → List String) (hasMK : Bool)
    (rows : List Review) (selected : List Category) : List Review :=
  if selected.isEmpty then rows
  else rows.filter (rowMatchesWith dict hasMK selected)

/-- `filter_by_categories` of src/dashboard.py. -/
def filter_by_categories : Bool → List Review → List Category → List Review :=
  filterByCategoriesWith categories

/-- `filter_by_categories` of src/scraper.py. -/
def scraper_filter_by_categories : Bool → List Review → List Category → List Review :=
  filterByCategoriesWith scraper_categories

/-- The row predicate the specification describes: the searchable text
contains, case-insensitively, some selected keyword as a plain substring. -/
def specRowMatches (dict : Category → List String) (hasMK : Bool)
    (selected : List Category) (r : Review) : Bool :=
  match searchText hasMK r with
  | none => false
  | some t => (all_keywords_of dict selected).any (fun kw => substrMatch kw t)

theorem infixOf_iff {a b : List Char} : infixOf a b = true ↔ a <:+: b := by
  simp [infixOf]

/-- Over a keyword list `L` whose pattern expansions are each rescued by some
keyword of `L` itself (h1) and each embed into their own keyword (h2), the
regex semantics of the compiled pattern agrees with plain substring search. -/
theorem any_kwMatches_eq_any_substrMatch (L : List String) (t : String)
    (h1 : ∀ kw ∈ L, ∀ alt ∈ regexAlts (lowerChars kw),
        ∃ kw2 ∈ L, lowerChars kw2 <:+: alt)
    (h2 : ∀ kw ∈ L, ∃ alt ∈ regexAlts (lowerChars kw), alt <:+: lowerChars kw) :
    L.any (fun kw => kwMatches kw t) = L.any (fun kw => substrMatch kw t) := by
  rw [Bool.eq_iff_iff]
  simp only [List.any_eq_true]
  constructor
  · rintro ⟨kw, hkw, hm⟩
    rw [kwMatches, List.any_eq_true] at hm
    obtain ⟨alt, halt, hinf⟩ := hm
    obtain ⟨kw2, hkw2, hsub⟩ := h1 kw hkw alt halt
    exact ⟨kw2, hkw2, infixOf_iff.mpr (hsub.trans (infixOf_iff.mp hinf))⟩
  · rintro ⟨kw, hkw, hm⟩
    obtain ⟨alt, halt, hsub⟩ := h2 kw hkw
    refine ⟨kw, hkw, ?_⟩
    rw [kwMatches, List.any_eq_true]
    exact ⟨alt, halt, infixOf_iff.mpr (hsub.trans (infixOf_iff.mp hm))⟩

/-- Per category of the dashboard dictionary, pattern matching and plain
substring matching keep the same rows. -/
theorem categories_any_eq (c : Category) (t : String) :
    (categories c).any (fun kw => kwMatches kw t)
      = (categories c).any (fun kw => substrMatch kw t) := by
  cases c <;> exact any_kwMatches_eq_any_substrMatch _ t (by decide) (by decide)

/-- The same for the scraper dictionary (all its keywords are plain). -/
theorem scraper_categories_any_eq (c : Category) (t : String) :
    (scraper_categories c).any (fun kw => kwMatches kw t)
      = (scraper_categories c).any (fun kw => substrMatch kw t) := by
  cases c <;> exact any_kwMatches_eq_any_substrMatch _ t (by decide) (by decide)

/-- Over any selection, matching against the compiled pattern of the union of
keyword lists agrees with plain substring search, for a dictionary whose
categories each satisfy `categories_any_eq`. -/
theorem all_keywords_any_eq (dict : Category → List String)
    (hdict : ∀ c t, (dict c).any (fun kw => kwMatches kw t)
        = (dict c).any (fun kw => substrMatch kw t))
    (selected : List Category) (t : String) :
    (all_keywords_of dict selected).any (fun kw => kwMatches kw t)
      = (all_keywords_of dict selected).any (fun kw => substrMatch kw t) := by
  induction selected with
  | nil => rfl
  | cons c rest ih =>
    simp only [all_keywords_of, List.map_cons, List.flatten_cons, List.any_append] at *
    rw [hdict c t, ih]

/-- The review of the spec's category-match scenario: text
"wrong size, never got a reply", no `matched_keywords` cell. -/
def sampleReview : Review :=
  { brand := "Wanderdoll", customer_name := "A",
    review_text := some "wrong size, never got a reply",
    rating := 1, date := 0, matched_keywords := none }

/-- C1: for every frame and non-empty selection, the dashboard category
filter keeps exactly the rows whose searchable text contains, case-
insensitively, some keyword of the union of the selected categories'
keyword sets as a plain substring; in particular the review
"wrong size, never got a reply" is kept under `product_issue` and not
kept under `service_issue`. -/
theorem filter_by_categories_substring (hasMK : Bool) (rows : List Review)
    (selected : List Category) (h : selected ≠ []) :
    filter_by_categories hasMK rows selected
        = rows.filter (specRowMatches categories hasMK selected)
      ∧ sampleReview ∈ filter_by_categories false [sampleReview] [product_issue]
      ∧ sampleReview ∉ filter_by_categories false [sampleReview] [service_issue] := by
  refine ⟨?_, by decide, by decide⟩
  rw [filter_by_categories, filterByCategoriesWith, if_neg (by simpa using h)]
  apply List.filter_congr
  intro r hr
  rw [rowMatchesWith, specRowMatches]
  cases searchText hasMK r with
  | none => rfl
  | some t => exact all_keywords_any_eq categories categories_any_eq selected t

/-- Witness for C1 at a concrete frame and selection. -/
theorem filter_by_categories_substring_witness :
    filter_by_categories false [sampleReview] [service_issue]
        = [sampleReview].filter (specRowMatches categories false [service_issue])
      ∧ sampleReview ∈ filter_by_categories false [sampleReview] [product_issue]
      ∧ sampleReview ∉ filter_by_categories false [sampleReview] [service_issue] :=
  filter_by_categories_substring false [sampleReview] [service_issue] (by decide)

/-- The sidebar filter state, as one immutable value: `brand` is `none` for
"All Brands"; `show_all` bypasses the category filter. -/
structure FilterSpec where
  brand : Option String
  start_date : Int
  end_date : Int
  ratings : List Int
  selected_categories : List Category
  show_all : Bool
deriving DecidableEq, Repr

/-- dashboard.py lines 148-149: the brand filter, a no-op for "All Brands". -/
def brandStage (b : Option String) (rows : List Review) : List Review :=
  match b with
  | none => rows
  | some bn => rows.filter (fun r => r.brand == bn)

/-- Both sources: keep rows with `start ≤ date ≤ end`, inclusive. -/
def dateStage (s e : Int) (rows : List Review) : List Review :=
  rows.filter (fun r => decide (s ≤ r.date) && decide (r.date ≤ e))

/-- dashboard.py lines 157-160: the rating filter is only applied when some
rating is selected (`if rating_options:`). -/
def ratingStage (opts : List Int) (rows : List Review) : List Review :=
  if opts.isEmpty then rows else rows.filter (fun r => opts.contains r.rating)

/-- scraper.py line 100: `isin(rating_options)` applied unconditionally. -/
def scraper_ratingStage (opts : List Int) (rows : List Review) : List Review :=
  rows.filter (fun r => opts.contains r.rating)

/-- Both sources: the category filter runs only when `show_all` is off and
some category is selected. -/
def categoryStageWith (dict : Category → List String) (hasMK show_all : Bool)
    (selected : List Category) (rows : List Review) : List Review :=
  if !show_all && !selected.isEmpty then filterByCategoriesWith dict hasMK rows selected
  else rows

/-- `filtered_df` of src/dashboard.py (lines 144-164): brand, then date, then
guarded rating, then category filter. -/
def filtered_df (hasMK : Bool) (d : List Review) (s : FilterSpec) : List Review :=
  categoryStageWith categories hasMK s.show_all s.selected_categories
    (ratingStage s.ratings (dateStage s.start_date s.end_date (brandStage s.brand d)))

/-- `filtered_df` of src/scraper.py (lines 90-104): date, then unguarded
rating, then category filter; there is no brand filter. -/
def scraper_filtered_df (hasMK : Bool) (d : List Review) (s : FilterSpec) : List Review :=
  categoryStageWith scraper_categories hasMK s.show_all s.selected_categories
    (scraper_ratingStage s.ratings (dateStage s.start_date s.end_date d))

/-- C2 (amended): with no rating selected, dashboard.py's rating stage is the
identity (the filter is skipped), while scraper.py's unguarded `isin` stage
removes every row. -/
theorem rating_stage_empty (rows : List Review) :
    ratingStage [] rows = rows ∧ scraper_ratingStage [] rows = [] := by
  refine ⟨rfl, ?_⟩
  simp [scraper_ratingStage]

/-- Counterexample to C2 as stated: on a one-row frame, scraper.py's rating
stage with an empty selection does not return its input. -/
theorem scraper_rating_stage_empty_cex :
    scraper_ratingStage [] [sampleReview] ≠ [sampleReview] := by decide

/-- C3: with every filter inactive — brand "All Brands", a date range
covering the dataset's full span, all five ratings selected, `show_all` on —
both pipelines return the dataset unchanged, same rows in the same order
(ratings are 1..5 by the data-model invariant). -/
theorem inactive_filters_identity (hasMK : Bool) (d : List Review) (s : FilterSpec)
    (hb : s.brand = none) (hs : s.show_all = true) (hr : s.ratings = [1, 2, 3, 4, 5])
    (hdate : ∀ r ∈ d, s.start_date ≤ r.date ∧ r.date ≤ s.end_date)
    (hrat : ∀ r ∈ d, r.rating ∈ ([1, 2, 3, 4, 5] : List Int)) :
    filtered_df hasMK d s = d ∧ scraper_filtered_df hasMK d s = d := by
  have hdate1 : dateStage s.start_date s.end_date d = d := by
    rw [dateStage]
    apply List.filter_eq_self.mpr
    intro a ha
    simp [(hdate a ha).1, (hdate a ha).2]
  have hrat1 : d.filter (fun r => s.ratings.contains r.rating) = d := by
    apply List.filter_eq_self.mpr
    intro a ha
    rw [hr]
    simpa using hrat a ha
  have hcat : ∀ dict rows, categoryStageWith dict hasMK s.show_all s.selected_categories rows
      = rows := by
    intro dict rows
    rw [categoryStageWith, hs]
    simp
  constructor
  · rw [filtered_df, hcat, hb, brandStage, hdate1, ratingStage, if_neg (by rw [hr]; decide),
      hrat1]
  · rw [scraper_filtered_df, hcat, hdate1, scraper_ratingStage, hrat1]

/-- A second concrete review, used by the witnesses. -/
def sampleReview2 : Review :=
  { brand := "Odd Muse", customer_name := "B",
    review_text := some "great dress, fast delivery",
    rating := 5, date := 10, matched_keywords := none }

/-- An all-inactive filter state over the witnesses' dates. -/
def inactiveSpec : FilterSpec :=
  { brand := none, start_date := 0, end_date := 100, ratings := [1, 2, 3, 4, 5],
    selected_categories := [], show_all := true }

/-- Witness for C3 on a concrete two-row dataset. -/
theorem inactive_filters_identity_witness :
    filtered_df false [sampleReview, sampleReview2] inactiveSpec
        = [sampleReview, sampleReview2]
      ∧ scraper_filtered_df false [sampleReview, sampleReview2] inactiveSpec
        = [sampleReview, sampleReview2] :=
  inactive_filters_identity false [sampleReview, sampleReview2] inactiveSpec
    rfl rfl rfl (by decide) (by decide)

/-- One row of the per-category breakdown table. -/
structure CatRow where
  category : Category
  count : Nat
  avg_rating : ℚ
  positive_pct : ℚ
deriving DecidableEq, Repr

/-- The stats reported for one category's row set (dashboard.py lines
257-262): count, mean rating, share of ratings ≥ 4; zero average and zero
percentage on an empty set. -/
def mkCatRow (c : Category) (l : List Review) : CatRow :=
  { category := c,
    count := l.length,
    avg_rating := if 0 < l.length then ((l.map (·.rating)).sum : ℚ) / l.length else 0,
    positive_pct :=
      if 0 < l.length
      then ((l.filter (fun r => decide (4 ≤ r.rating))).length : ℚ) / l.length * 100
      else 0 }

/-- dashboard.py lines 246-255: the per-category row set — the single-
category filter applied to the full dataset, then the brand filter, then one
combined date-and-rating filter whose `isin` part is unguarded. -/
def catPipeline (hasMK : Bool) (d : List Review) (s : FilterSpec) (c : Category) :
    List Review :=
  (brandStage s.brand (filter_by_categories hasMK d [c])).filter
    (fun r => (decide (s.start_date ≤ r.date) && decide (r.date ≤ s.end_date))
      && s.ratings.contains r.rating)

/-- dashboard.py lines 245-262: `category_data`, one breakdown row per
selected category. -/
def category_data (hasMK : Bool) (d : List Review) (s : FilterSpec) : List CatRow :=
  s.selected_categories.map (fun c => mkCatRow c (catPipeline hasMK d s c))


/-- With some rating selected, the breakdown's per-category row set equals
the whole dashboard pipeline re-run on the full dataset with that single
category substituted (and `show_all` off). -/
theorem catPipeline_eq_filtered_df (hasMK : Bool) (d : List Review) (s : FilterSpec)
    (c : Category) (hr : s.ratings ≠ []) :
    catPipeline hasMK d s c
      = filtered_df hasMK d { s with selected_categories := [c], show_all := false } := by
  have hne : ¬(s.ratings.isEmpty = true) := by simpa using hr
  rw [catPipeline, filtered_df, filter_by_categories]
  simp only [categoryStageWith, filterByCategoriesWith, ratingStage, dateStage, if_neg hne]
  simp only [List.isEmpty_cons, Bool.not_false, Bool.not_true, Bool.and_self, Bool.and_true,
    Bool.true_and, Bool.false_eq_true, if_false, ite_false, ite_true, if_true]
  cases hb : s.brand with
  | none =>
    simp only [brandStage, List.filter_filter]
    refine List.filter_congr fun a _ => ?_
    cases rowMatchesWith categories hasMK [c] a <;>
      cases decide (s.start_date ≤ a.date) <;>
        cases decide (a.date ≤ s.end_date) <;>
          cases s.ratings.contains a.rating <;> rfl
  | some bn =>
    simp only [brandStage, List.filter_filter]
    refine List.filter_congr fun a _ => ?_
    cases rowMatchesWith categories hasMK [c] a <;>
      cases decide (s.start_date ≤ a.date) <;>
        cases decide (a.date ≤ s.end_date) <;>
          cases s.ratings.contains a.rating <;>
            cases a.brand == bn <;> rfl

/-- C4 (amended): when some rating is selected, each breakdown row is the
count, mean rating and positive share of the full dataset independently
re-filtered through the whole pipeline with that single category — not a
partition of the already-filtered view, so one review can be counted in
several categories' rows. -/
theorem category_breakdown_recomputation (hasMK : Bool) (d : List Review) (s : FilterSpec)
    (hr : s.ratings ≠ []) :
    category_data hasMK d s
      = s.selected_categories.map (fun c =>
          mkCatRow c (filtered_df hasMK d
            { s with selected_categories := [c], show_all := false })) := by
  rw [category_data]
  exact List.map_congr_left fun c _ => by rw [catPipeline_eq_filtered_df hasMK d s c hr]

/-- A filter state selecting two categories with all ratings, used by the
C4 witness. -/
def catSpec : FilterSpec :=
  { brand := none, start_date := 0, end_date := 100, ratings := [1, 2, 3, 4, 5],
    selected_categories := [product_issue, service_issue], show_all := false }

/-- Witness for C4 (amended) on a concrete dataset and filter state. -/
theorem category_breakdown_recomputation_witness :
    category_data false [sampleReview, sampleReview2] catSpec
      = catSpec.selected_categories.map (fun c =>
          mkCatRow c (filtered_df false [sampleReview, sampleReview2]
            { catSpec with selected_categories := [c], show_all := false })) :=
  category_breakdown_recomputation false [sampleReview, sampleReview2] catSpec (by decide)

/-- A filter state with category `product_issue` selected but no rating
selected. -/
def cexSpec : FilterSpec :=
  { brand := none, start_date := 0, end_date := 100, ratings := [],
    selected_categories := [product_issue], show_all := false }

/-- Counterexample to C4 as stated: with no rating selected, the breakdown
row for `product_issue` has count 0, while the full pipeline re-run with
that single category (whose rating filter is skipped when no rating is
selected) keeps the matching review. -/
theorem category_breakdown_empty_ratings_cex :
    (category_data false [sampleReview] cexSpec).map (fun row => row.count) = [0]
      ∧ filtered_df false [sampleReview] cexSpec = [sampleReview] := by
  exact ⟨by decide, by decide⟩

/-- The engine behind `drop_duplicates(keep='first')` and `unique()`: keep
each element whose key was not seen before it, in order. -/
def keepFirstByAux {α β : Type} (k : α → β) [DecidableEq β] (seen : List β) :
    List α → List α
  | [] => []
  | a :: rest =>
    if k a ∈ seen then keepFirstByAux k seen rest
    else a :: keepFirstByAux k (k a :: seen) rest

theorem keepFirstByAux_sublist {α β : Type} (k : α → β) [DecidableEq β]
    (seen : List β) (l : List α) : (keepFirstByAux k seen l).Sublist l := by
  induction l generalizing seen with
  | nil => simp [keepFirstByAux]
  | cons a rest ih =>
    rw [keepFirstByAux]
    by_cases h : k a ∈ seen
    · rw [if_pos h]; exact (ih seen).cons a
    · rw [if_neg h]; exact (ih (k a :: seen)).cons₂ a

theorem mem_keepFirstByAux {α β : Type} (k : α → β) [DecidableEq β]
    (seen : List β) (l : List α) (x : α) (hx : x ∈ keepFirstByAux k seen l) :
    x ∈ l ∧ k x ∉ seen := by
  induction l generalizing seen with
  | nil => simp [keepFirstByAux] at hx
  | cons a rest ih =>
    rw [keepFirstByAux] at hx
    by_cases h : k a ∈ seen
    · rw [if_pos h] at hx
      exact ⟨List.mem_cons_of_mem a (ih seen hx).1, (ih seen hx).2⟩
    · rw [if_neg h] at hx
      rcases List.mem_cons.mp hx with rfl | hx2
      · exact ⟨List.mem_cons_self x rest, h⟩
      · have h2 := ih (k a :: seen) hx2
        exact ⟨List.mem_cons_of_mem a h2.1, fun hk => h2.2 (List.mem_cons_of_mem _ hk)⟩

theorem pairwise_keepFirstByAux {α β : Type} (k : α → β) [DecidableEq β]
    (seen : List β) (l : List α) :
    (keepFirstByAux k seen l).Pairwise (fun a b => k a ≠ k b) := by
  induction l generalizing seen with
  | nil => simp [keepFirstByAux]
  | cons a rest ih =>
    rw [keepFirstByAux]
    by_cases h : k a ∈ seen
    · rw [if_pos h]; exact ih seen
    · rw [if_neg h]
      refine List.Pairwise.cons (fun b hb hkb => ?_) (ih (k a :: seen))
      have h2 := mem_keepFirstByAux k (k a :: seen) rest b hb
      exact h2.2 (hkb ▸ List.mem_cons_self _ _)

theorem keepFirstByAux_covers {α β : Type} (k : α → β) [DecidableEq β]
    (seen : List β) (l : List α) (x : α) (hx : x ∈ l) :
    k x ∈ seen ∨ ∃ y ∈ keepFirstByAux k seen l, k y = k x := by
  induction l generalizing seen with
  | nil => simp at hx
  | cons a rest ih =>
    rw [keepFirstByAux]
    by_cases h : k a ∈ seen
    · rw [if_pos h]
      rcases List.mem_cons.mp hx with rfl | hx2
      · exact Or.inl h
      · exact ih seen hx2
    · rw [if_neg h]
      rcases List.mem_cons.mp hx with rfl | hx2
      · exact Or.inr ⟨x, List.mem_cons_self x _, rfl⟩
      · rcases ih (k a :: seen) hx2 with hseen | ⟨y, hy, hky⟩
        · rcases List.mem_cons.mp hseen with heq | hseen2
          · exact Or.inr ⟨a, List.mem_cons_self a _, heq.symm⟩
          · exact Or.inl hseen2
        · exact Or.inr ⟨y, List.mem_cons_of_mem a hy, hky⟩

theorem keepFirstByAux_first {α β : Type} (k : α → β) [DecidableEq β]
    (seen : List β) (l : List α) (x : α) (hx : x ∈ keepFirstByAux k seen l) :
    ∃ pre post, l = pre ++ x :: post ∧ ∀ p ∈ pre, k p ∈ seen ∨ k p ≠ k x := by
  induction l generalizing seen with
  | nil => simp [keepFirstByAux] at hx
  | cons a rest ih =>
    rw [keepFirstByAux] at hx
    by_cases h : k a ∈ seen
    · rw [if_pos h] at hx
      obtain ⟨pre, post, hsplit, hpre⟩ := ih seen hx
      exact ⟨a :: pre, post, by rw [hsplit, List.cons_append],
        fun p hp => by
          rcases List.mem_cons.mp hp with rfl | hp2
          · exact Or.inl h
          · exact hpre p hp2⟩
    · rw [if_neg h] at hx
      rcases List.mem_cons.mp hx with rfl | hx2
      · exact ⟨[], rest, rfl, by simp⟩
      · have hxk := (mem_keepFirstByAux k (k a :: seen) rest x hx2).2
        obtain ⟨pre, post, hsplit, hpre⟩ := ih (k a :: seen) hx2
        refine ⟨a :: pre, post, by rw [hsplit, List.cons_append], fun p hp => ?_⟩
        rcases List.mem_cons.mp hp with rfl | hp2
        · exact Or.inr fun hpk => hxk (hpk ▸ List.mem_cons_self _ _)
        · rcases hpre p hp2 with hs | hne
          · rcases List.mem_cons.mp hs with heq | hs2
            · exact Or.inr fun hpk => hxk ((hpk ▸ heq) ▸ List.mem_cons_self _ _)
            · exact Or.inl hs2
          · exact Or.inr hne

/-- The dedup key of dashboard.py line 24:
`subset=["brand", "customer name", "review", "rating", "date"]`. -/
def reviewKey (r : Review) : String × String × Option String × Int × Int :=
  (r.brand, r.customer_name, r.review_text, r.rating, r.date)

/-- `drop_duplicates(subset=..., keep='first')`. -/
def drop_duplicates (l : List Review) : List Review := keepFirstByAux reviewKey [] l

/-- Tag one source's rows with its brand (dashboard.py lines 15-16). -/
def setBrand (b : String) (r : Review) : Review := { r with brand := b }

/-- The concatenation of the two brand-tagged sources (dashboard.py line 19). -/
def concat_sources (wd om : List Review) : List Review :=
  wd.map (setBrand "Wanderdoll") ++ om.map (setBrand "Odd Muse")

/-- `load_data` of src/dashboard.py (lines 9-26): tag, concatenate,
drop duplicate key tuples keeping the first occurrence. -/
def load_data (wd om : List Review) : List Review :=
  drop_duplicates (concat_sources wd om)

/-- C9: after loading, any two distinct rows differ on the tuple
(brand, customer name, review text, rating, date); the loaded dataset is a
subsequence of the tagged concatenation, every key of the concatenation is
represented, and each kept row is the first row of the concatenation
bearing its key. -/
theorem load_data_dedup (wd om : List Review) :
    (load_data wd om).Pairwise (fun a b => reviewKey a ≠ reviewKey b)
      ∧ (load_data wd om).Sublist (concat_sources wd om)
      ∧ (∀ r ∈ concat_sources wd om, ∃ x ∈ load_data wd om, reviewKey x = reviewKey r)
      ∧ (∀ x ∈ load_data wd om, ∃ pre post, concat_sources wd om = pre ++ x :: post
          ∧ ∀ p ∈ pre, reviewKey p ≠ reviewKey x) := by
  refine ⟨pairwise_keepFirstByAux reviewKey [] _,
    keepFirstByAux_sublist reviewKey [] _, fun r hr => ?_, fun x hx => ?_⟩
  · rcases keepFirstByAux_covers reviewKey [] (concat_sources wd om) r hr with hs | hy
    · simp at hs
    · exact hy
  · obtain ⟨pre, post, hsplit, hpre⟩ :=
      keepFirstByAux_first reviewKey [] (concat_sources wd om) x hx
    refine ⟨pre, post, hsplit, fun p hp => ?_⟩
    rcases hpre p hp with hs | hne
    · simp at hs
    · exact hne

theorem mem_uniqueFirst {β : Type} [DecidableEq β] (l : List β) (x : β) :
    x ∈ keepFirstByAux (fun v => v) [] l ↔ x ∈ l := by
  constructor
  · intro hx; exact (mem_keepFirstByAux _ [] l x hx).1
  · intro hx
    rcases keepFirstByAux_covers (fun v => v) [] l x hx with hs | ⟨y, hy, hky⟩
    · simp at hs
    · have hyx : y = x := hky
      exact hyx ▸ hy

theorem nodup_uniqueFirst {β : Type} [DecidableEq β] (l : List β) :
    (keepFirstByAux (fun v => v) [] l).Nodup :=
  (pairwise_keepFirstByAux (fun v => v) [] l).imp fun h => h

/-- `value_counts().sort_index()` of an integer column: the distinct
observed values in ascending order, each with its multiplicity. -/
def value_counts_sorted (vals : List Int) : List (Int × Nat) :=
  (List.insertionSort (· ≤ ·) (keepFirstByAux (fun v => v) [] vals)).map
    (fun v => (v, vals.count v))

/-- dashboard.py lines 204-206 (scraper.py 144-146): the rating histogram of
a view, `value_counts().sort_index()` of its `rating` column. -/
def rating_counts (rows : List Review) : List (Int × Nat) :=
  value_counts_sorted (rows.map (fun r => r.rating))

theorem map_fst_value_counts_sorted (vals : List Int) :
    (value_counts_sorted vals).map Prod.fst
      = List.insertionSort (· ≤ ·) (keepFirstByAux (fun v => v) [] vals) := by
  rw [value_counts_sorted, List.map_map]
  exact List.map_id _

/-- C6 (amended): the histogram has one entry per rating value observed in
the view — absent values get no entry — in strictly ascending order, and
each entry's count is the number of rows of the view with that rating. -/
theorem rating_counts_observed (rows : List Review) :
    (∀ v : Int, v ∈ (rating_counts rows).map Prod.fst ↔ ∃ r ∈ rows, r.rating = v)
      ∧ (∀ p ∈ rating_counts rows, p.2 = rows.countP (fun r => r.rating == p.1))
      ∧ ((rating_counts rows).map Prod.fst).Sorted (· < ·) := by
  have hperm := List.perm_insertionSort (· ≤ ·)
    (keepFirstByAux (fun v => v) [] (rows.map (fun r => r.rating)))
  refine ⟨fun v => ?_, fun p hp => ?_, ?_⟩
  · rw [rating_counts, map_fst_value_counts_sorted, hperm.mem_iff, mem_uniqueFirst,
      List.mem_map]
  · rw [rating_counts, value_counts_sorted] at hp
    obtain ⟨v, hv, rfl⟩ := List.mem_map.mp hp
    rw [List.count_eq_countP, List.countP_map]
    rfl
  · rw [rating_counts, map_fst_value_counts_sorted]
    refine List.Sorted.lt_of_le (List.sorted_insertionSort _ _) ?_
    exact hperm.nodup_iff.mpr (nodup_uniqueFirst _)

/-- Counterexample to C6 as stated: on a view holding one 5-star review the
histogram has no entry at all for rating 1 — absent rating values get no
zero-count bin. -/
theorem rating_counts_missing_bin_cex :
    ¬ ∃ p ∈ rating_counts [sampleReview2], p.1 = (1 : Int) := by decide

/-- The summary metrics block (dashboard.py lines 180-198). -/
structure Summary where
  total : Nat
  avg_rating : ℚ
  positive_count : Nat
  positive_pct : ℚ
  negative_count : Nat
  negative_pct : ℚ
deriving DecidableEq, Repr

/-- Mean of the `rating` column (`.mean()`), as an exact rational. -/
def mean_rating (rows : List Review) : ℚ :=
  ((rows.map (fun r => r.rating)).sum : ℚ) / rows.length

/-- dashboard.py lines 180-198: the aggregate summary is only computed
behind the `if not filtered_df.empty:` guard; an empty view yields the
explicit no-data report instead. -/
def summary (rows : List Review) : Option Summary :=
  if rows.isEmpty then none
  else some
    { total := rows.length,
      avg_rating := mean_rating rows,
      positive_count := (rows.filter (fun r => decide (4 ≤ r.rating))).length,
      positive_pct :=
        ((rows.filter (fun r => decide (4 ≤ r.rating))).length : ℚ) / rows.length * 100,
      negative_count := (rows.filter (fun r => decide (r.rating ≤ 2))).length,
      negative_pct :=
        ((rows.filter (fun r => decide (r.rating ≤ 2))).length : ℚ) / rows.length * 100 }

/-- C7: the aggregate summary of a filtered view is the explicit no-data
report exactly when the view is empty; on a non-empty view every denominator
is its positive row count, so no aggregate divides by zero. -/
theorem summary_empty_no_data (hasMK : Bool) (d : List Review) (s : FilterSpec) :
    (summary (filtered_df hasMK d s) = none ↔ filtered_df hasMK d s = [])
      ∧ (∀ smry, summary (filtered_df hasMK d s) = some smry → 0 < smry.total) := by
  constructor
  · rw [summary]
    by_cases h : (filtered_df hasMK d s).isEmpty
    · simp [h, List.isEmpty_iff.mp h]
    · simp [h, List.isEmpty_iff.not.mp h]
  · intro smry hsmry
    rw [summary] at hsmry
    by_cases h : (filtered_df hasMK d s).isEmpty
    · simp [h] at hsmry
    · simp only [h, Bool.false_eq_true, if_false] at hsmry
      have := congrArg (fun o => o.map Summary.total) hsmry
      simp at this
      rw [← this]
      exact List.length_pos.mpr (List.isEmpty_iff.not.mp h)

/-- C10: a row whose searchable text cell is missing (NaN) is never kept by
a non-empty category filter (`na=False`); the filter is total, so it always
returns a result on such frames. -/
theorem filter_missing_text_excluded (hasMK : Bool) (d : List Review)
    (selected : List Category) (r : Review) (hne : selected ≠ [])
    (hmiss : searchText hasMK r = none) :
    r ∉ filter_by_categories hasMK d selected := by
  intro hr
  rw [filter_by_categories, filterByCategoriesWith, if_neg (by simpa using hne)] at hr
  have hmatch := (List.mem_filter.mp hr).2
  rw [rowMatchesWith, hmiss] at hmatch
  exact Bool.false_ne_true hmatch

/-- The missing-text review of the C10 witness. -/
def missingTextReview : Review :=
  { brand := "Wanderdoll", customer_name := "C", review_text := none,
    rating := 3, date := 5, matched_keywords := none }

/-- Witness for C10 at a concrete frame and selection. -/
theorem filter_missing_text_excluded_witness :
    missingTextReview ∉ filter_by_categories false [missingTextReview] [service_issue] :=
  filter_missing_text_excluded false [missingTextReview] [service_issue]
    missingTextReview (by decide) rfl

theorem countP_filter {α : Type} (p q : α → Bool) (d : List α) :
    (d.filter p).countP q = d.countP (fun r => p r && q r) := by
  rw [List.countP_eq_length_filter, List.filter_filter, List.countP_eq_length_filter]
  exact congrArg List.length (List.filter_congr fun a _ => by cases p a <;> cases q a <;> rfl)

theorem rating_counts_count_mem (rows : List Review) (p : Int × Nat)
    (hp : p ∈ rating_counts rows) : p.2 = rows.countP (fun r => r.rating == p.1) := by
  rw [rating_counts, value_counts_sorted] at hp
  obtain ⟨v, hv, rfl⟩ := List.mem_map.mp hp
  rw [List.count_eq_countP, List.countP_map]
  rfl

theorem rating_counts_fst_mem (rows : List Review) (v : Int) :
    v ∈ (rating_counts rows).map Prod.fst ↔ ∃ r ∈ rows, r.rating = v := by
  have hperm := List.perm_insertionSort (· ≤ ·)
    (keepFirstByAux (fun v => v) [] (rows.map (fun r => r.rating)))
  rw [rating_counts, map_fst_value_counts_sorted, hperm.mem_iff, mem_uniqueFirst,
    List.mem_map]

/-- `df["brand"].unique()` (dashboard.py line 404): the distinct brand names
in first-occurrence order. -/
def available_brands (d : List Review) : List String :=
  keepFirstByAux (fun v => v) [] (d.map (fun r => r.brand))

/-- The per-brand metrics of the comparison tab. -/
structure BrandStats where
  avg_rating : ℚ
  total : Nat
  positive_pct : ℚ
  negative_pct : ℚ
  hist : List (Int × Nat)
deriving DecidableEq, Repr

/-- dashboard.py lines 421-447 and 455-467: one brand's comparison metrics,
computed over the brand's complete row set of the full dataset — no date or
rating filter is re-applied. -/
def brand_stats (d : List Review) (b : String) : BrandStats :=
  { avg_rating := mean_rating (d.filter (fun r => r.brand == b)),
    total := (d.filter (fun r => r.brand == b)).length,
    positive_pct :=
      (((d.filter (fun r => r.brand == b)).filter
          (fun r => decide (4 ≤ r.rating))).length : ℚ)
        / (d.filter (fun r => r.brand == b)).length * 100,
    negative_pct :=
      (((d.filter (fun r => r.brand == b)).filter
          (fun r => decide (r.rating ≤ 2))).length : ℚ)
        / (d.filter (fun r => r.brand == b)).length * 100,
    hist := rating_counts (d.filter (fun r => r.brand == b)) }

/-- dashboard.py lines 481-492: `comparison_data` — per category, each
brand's matching-row count and its share of that brand's total (0 when the
brand has no rows). -/
def comparison_data (hasMK : Bool) (d : List Review) (b1 b2 : String) :
    List (Category × Nat × ℚ × Nat × ℚ) :=
  allCategories.map (fun c =>
    (c,
      (filter_by_categories hasMK (d.filter (fun r => r.brand == b1)) [c]).length,
      if 0 < (d.filter (fun r => r.brand == b1)).length
      then ((filter_by_categories hasMK (d.filter (fun r => r.brand == b1)) [c]).length : ℚ)
        / (d.filter (fun r => r.brand == b1)).length * 100
      else 0,
      (filter_by_categories hasMK (d.filter (fun r => r.brand == b2)) [c]).length,
      if 0 < (d.filter (fun r => r.brand == b2)).length
      then ((filter_by_categories hasMK (d.filter (fun r => r.brand == b2)) [c]).length : ℚ)
        / (d.filter (fun r => r.brand == b2)).length * 100
      else 0))

/-- dashboard.py lines 404-495: the comparison tab — unavailable with fewer
than two distinct brands, else both brands' metrics and the per-category
comparison table over the full dataset. -/
def tab3 (hasMK : Bool) (d : List Review) (b1 b2 : String) :
    Option (BrandStats × BrandStats × List (Category × Nat × ℚ × Nat × ℚ)) :=
  if (available_brands d).length < 2 then none
  else some (brand_stats d b1, brand_stats d b2, comparison_data hasMK d b1 b2)

theorem cat_count_eq (hasMK : Bool) (d : List Review) (b : String) (c : Category) :
    (filter_by_categories hasMK (d.filter (fun r => r.brand == b)) [c]).length
      = d.countP (fun r => r.brand == b && rowMatchesWith categories hasMK [c] r) := by
  rw [filter_by_categories, filterByCategoriesWith]
  simp only [List.isEmpty_cons, Bool.false_eq_true, if_false]
  rw [← List.countP_eq_length_filter, countP_filter]

theorem cat_pct_eq (hasMK : Bool) (d : List Review) (b : String) (c : Category) :
    (if 0 < (d.filter (fun r => r.brand == b)).length
     then ((filter_by_categories hasMK (d.filter (fun r => r.brand == b)) [c]).length : ℚ)
       / (d.filter (fun r => r.brand == b)).length * 100
     else 0)
      = 100 * (d.countP (fun r => r.brand == b && rowMatchesWith categories hasMK [c] r) : ℚ)
        / (d.countP (fun r => r.brand == b) : ℚ) := by
  by_cases h : 0 < (d.filter (fun r => r.brand == b)).length
  · rw [if_pos h, cat_count_eq, ← List.countP_eq_length_filter, div_mul_eq_mul_div, mul_comm]
  · rw [if_neg h]
    have hnil : d.filter (fun r => r.brand == b) = [] :=
      List.length_eq_zero.mp (Nat.eq_zero_of_not_pos h)
    have h0 : d.countP (fun r => r.brand == b) = 0 := by
      rw [List.countP_eq_length_filter, hnil]; rfl
    have h1 : d.countP (fun r => r.brand == b && rowMatchesWith categories hasMK [c] r)
        = 0 := by
      rw [← countP_filter, hnil]; rfl
    rw [h0, h1]
    simp

/-- C5: with fewer than two distinct brands the comparison is reported
unavailable, never computed; otherwise each chosen brand's metrics are
computed independently over that brand's complete row set of the full
dataset (no date or rating filter re-applied): total count, average rating,
positive and negative percentages, rating histogram, and per-category count
and percentage relative to that brand's total. -/
theorem brand_comparison_full_history (hasMK : Bool) (d : List Review) (b1 b2 : String) :
    ((available_brands d).length < 2 → tab3 hasMK d b1 b2 = none)
  ∧ (2 ≤ (available_brands d).length →
      tab3 hasMK d b1 b2
        = some (brand_stats d b1, brand_stats d b2, comparison_data hasMK d b1 b2))
  ∧ (∀ b, (brand_stats d b).total = d.countP (fun r => r.brand == b))
  ∧ (∀ b, (brand_stats d b).avg_rating
      = (((d.filter (fun r => r.brand == b)).map (fun r => r.rating)).sum : ℚ)
        / (d.countP (fun r => r.brand == b) : ℚ))
  ∧ (∀ b, (brand_stats d b).positive_pct
      = 100 * (d.countP (fun r => r.brand == b && decide (4 ≤ r.rating)) : ℚ)
        / (d.countP (fun r => r.brand == b) : ℚ))
  ∧ (∀ b, (brand_stats d b).negative_pct
      = 100 * (d.countP (fun r => r.brand == b && decide (r.rating ≤ 2)) : ℚ)
        / (d.countP (fun r => r.brand == b) : ℚ))
  ∧ (∀ b, ∀ p ∈ (brand_stats d b).hist,
      p.2 = d.countP (fun r => r.brand == b && r.rating == p.1))
  ∧ (∀ b v, v ∈ ((brand_stats d b).hist).map Prod.fst
      ↔ ∃ r ∈ d, r.brand = b ∧ r.rating = v)
  ∧ comparison_data hasMK d b1 b2
      = allCategories.map (fun c =>
          (c,
            d.countP (fun r => r.brand == b1 && rowMatchesWith categories hasMK [c] r),
            100 * (d.countP (fun r => r.brand == b1
                && rowMatchesWith categories hasMK [c] r) : ℚ)
              / (d.countP (fun r => r.brand == b1) : ℚ),
            d.countP (fun r => r.brand == b2 && rowMatchesWith categories hasMK [c] r),
            100 * (d.countP (fun r => r.brand == b2
                && rowMatchesWith categories hasMK [c] r) : ℚ)
              / (d.countP (fun r => r.brand == b2) : ℚ))) := by
  refine ⟨fun h => by rw [tab3, if_pos h],
    fun h => by rw [tab3, if_neg (Nat.not_lt.mpr h)],
    fun b => (List.countP_eq_length_filter _ d).symm,
    fun b => ?_, fun b => ?_, fun b => ?_, fun b p hp => ?_, fun b v => ?_, ?_⟩
  · rw [brand_stats, mean_rating, List.countP_eq_length_filter]
  · rw [brand_stats]
    show (((d.filter (fun r => r.brand == b)).filter
        (fun r => decide (4 ≤ r.rating))).length : ℚ)
        / (d.filter (fun r => r.brand == b)).length * 100 = _
    rw [← List.countP_eq_length_filter, countP_filter, ← List.countP_eq_length_filter,
      div_mul_eq_mul_div, mul_comm]
  · rw [brand_stats]
    show (((d.filter (fun r => r.brand == b)).filter
        (fun r => decide (r.rating ≤ 2))).length : ℚ)
        / (d.filter (fun r => r.brand == b)).length * 100 = _
    rw [← List.countP_eq_length_filter, countP_filter, ← List.countP_eq_length_filter,
      div_mul_eq_mul_div, mul_comm]
  · rw [brand_stats] at hp
    have := rating_counts_count_mem _ p hp
    rw [this, countP_filter]
  · rw [brand_stats]
    show v ∈ (rating_counts (d.filter (fun r => r.brand == b))).map Prod.fst ↔ _
    rw [rating_counts_fst_mem]
    constructor
    · rintro ⟨r, hr, rfl⟩
      obtain ⟨hrd, hrb⟩ := List.mem_filter.mp hr
      exact ⟨r, hrd, by simpa using hrb, rfl⟩
    · rintro ⟨r, hrd, hrb, rfl⟩
      exact ⟨r, List.mem_filter.mpr ⟨hrd, by simpa using hrb⟩, rfl⟩
  · rw [comparison_data]
    refine List.map_congr_left fun c _ => ?_
    rw [cat_pct_eq, cat_pct_eq, cat_count_eq, cat_count_eq]
